import Mathlib

/-!
Verification development for the wdd330 personal-finance widgets.

This file gives a shallow embedding of the storage layer
(`final_project_fz/scripts/storage.js`), the goals page logic
(`final_project_fz/scripts/goals.js`) and the two canvas chart renderers
(`final_project_fz/scripts/chart.js` `createStockChart` and the portfolio
module's `displayStockChart`), and proves the spec's testable properties
against them.

Modelling conventions:
- JSON-serializable values are the inductive `JsValue`; numbers are `ℚ`.
- A persisted localStorage cell is a `StoredCell`: `absent` stands for a
  missing key (or an empty string, both of which `safeParse` treats via the
  falsy branch), `malformed` stands for a non-empty string on which
  `JSON.parse` throws, and `wellFormed v` stands for a string that parses to
  `v`.  A successful `JSON.stringify(v)` followed by `setItem` is modelled
  as writing `wellFormed v`, relying on the platform identity
  `JSON.parse (JSON.stringify v) = v` for JSON-serializable `v`.
- Epoch-millisecond clock readings (`Date.now()`) are explicit `ℤ`
  parameters named `now`.
- Code that can throw is modelled with `Except Unit`.
- JavaScript objects are association lists with first-occurrence lookup;
  the operations below (`alookup`, `aset`, `aerase`) mirror property read,
  property write and the `delete` operator on such objects.
-/

/-- A JSON-serializable JavaScript value. -/
inductive JsValue : Type
  | null
  | bool (b : Bool)
  | num (q : ℚ)
  | str (s : String)
  | arr (elems : List JsValue)
  | obj (fields : List (String × JsValue))

/-- JavaScript truthiness of a `JsValue` (as used by `x || []` and by
`if (entry.ttl ...)`): `null`, `false`, `0` and the empty string are falsy,
arrays and objects are always truthy. -/
def JsValue.truthy : JsValue → Bool
  | .null => false
  | .bool b => b
  | .num q => decide (q ≠ 0)
  | .str s => decide (s ≠ "")
  | .arr _ => true
  | .obj _ => true

/-- One localStorage cell, classified by how `JSON.parse` behaves on it. -/
inductive StoredCell : Type
  | absent
  | malformed
  | wellFormed (v : JsValue)

/-- The whole localStorage key-value store. -/
abbrev Store : Type := String → StoredCell

/-- Model of `localStorage.getItem`. -/
def Store.getItem (s : Store) (k : String) : StoredCell := s k

/-- Model of `localStorage.setItem`. -/
def Store.setItem (s : Store) (k : String) (c : StoredCell) : Store :=
  fun k2 => if k2 = k then c else s k2

-- The fixed storage keys of `storage.js` (`STORAGE_KEYS`).
namespace STORAGE_KEYS

def PORTFOLIO : String := "finance_portfolio_holdings"
def TRANSACTIONS : String := "finance_transactions"
def EXPENSES : String := "finance_expenses"
def GOALS : String := "finance_savings_goals"
def SETTINGS : String := "finance_user_settings"
def CACHE : String := "finance_api_cache"

end STORAGE_KEYS

/-- Model of `safeParse(data, defaultValue)` from `storage.js`: a missing or
falsy string yields the default, a parse failure is caught and yields the
default, and otherwise the parsed value is returned unchanged. -/
def safeParse (cell : StoredCell) (defaultValue : JsValue) : JsValue :=
  match cell with
  | .absent => defaultValue
  | .malformed => defaultValue
  | .wellFormed v => v

namespace portfolioStorage

/-- Model of `portfolioStorage.load`. -/
def load (s : Store) : JsValue :=
  safeParse (s.getItem STORAGE_KEYS.PORTFOLIO) (.arr [])

/-- Model of `portfolioStorage.save` (a successful stringify-and-write). -/
def save (holdings : JsValue) (s : Store) : Store :=
  s.setItem STORAGE_KEYS.PORTFOLIO (.wellFormed holdings)

end portfolioStorage

namespace transactionStorage

/-- Model of `transactionStorage.load`. -/
def load (s : Store) : JsValue :=
  safeParse (s.getItem STORAGE_KEYS.TRANSACTIONS) (.arr [])

/-- Model of `transactionStorage.save`. -/
def save (transactions : JsValue) (s : Store) : Store :=
  s.setItem STORAGE_KEYS.TRANSACTIONS (.wellFormed transactions)

end transactionStorage

namespace expenseStorage

/-- Model of `expenseStorage.load`. -/
def load (s : Store) : JsValue :=
  safeParse (s.getItem STORAGE_KEYS.EXPENSES) (.arr [])

/-- Model of `expenseStorage.save`. -/
def save (expenses : JsValue) (s : Store) : Store :=
  s.setItem STORAGE_KEYS.EXPENSES (.wellFormed expenses)

end expenseStorage

namespace goalStorage

/-- Model of `goalStorage.load`. -/
def load (s : Store) : JsValue :=
  safeParse (s.getItem STORAGE_KEYS.GOALS) (.arr [])

/-- Model of `goalStorage.save`. -/
def save (goals : JsValue) (s : Store) : Store :=
  s.setItem STORAGE_KEYS.GOALS (.wellFormed goals)

end goalStorage

/-- First-occurrence lookup in an association list, as JavaScript property
read on an object. -/
def alookup {β : Type} : List (String × β) → String → Option β
  | [], _ => none
  | (k, v) :: rest, key => if k = key then some v else alookup rest key

/-- Write a property: replace the first occurrence of the key in place, or
append the new key at the end, as JavaScript property assignment. -/
def aset {β : Type} : List (String × β) → String → β → List (String × β)
  | [], key, v => [(key, v)]
  | (k, w) :: rest, key, v =>
    if k = key then (k, v) :: rest else (k, w) :: aset rest key v

/-- Remove the first occurrence of a key, as the JavaScript `delete`
operator on an object property. -/
def aerase {β : Type} : List (String × β) → String → List (String × β)
  | [], _ => []
  | (k, v) :: rest, key => if k = key then rest else (k, v) :: aerase rest key

/-- Lookup of a settings field, used for the object-spread model. -/
def lookupField (fields : List (String × JsValue)) (key : String) : Option JsValue :=
  alookup fields key

/-- Model of the object spread `{ ...a, ...b }`: the keys of `a` come first
in their original order with values overridden by `b` where present,
followed by the keys that only `b` has, in their order. -/
def objSpread (a b : List (String × JsValue)) : List (String × JsValue) :=
  (a.map (fun kv => (kv.1, (lookupField b kv.1).getD kv.2))) ++
    b.filter (fun kv => (lookupField a kv.1).isNone)

/-- The `settingsStorage.defaults` object from `storage.js`. -/
def settingsDefaults : List (String × JsValue) :=
  [("currency", .str "USD"),
   ("theme", .str "light"),
   ("refreshInterval", .num 60000),
   ("dateFormat", .str "MM/DD/YYYY"),
   ("language", .str "en")]

namespace settingsStorage

/-- Model of `settingsStorage.load`: parse with default `{}`, then return
`{ ...this.defaults, ...settings }`.  A stored non-object JSON value (other
than a string) contributes no enumerable own properties to the spread, which
the catch-all branch models. -/
def load (s : Store) : JsValue :=
  match safeParse (s.getItem STORAGE_KEYS.SETTINGS) (.obj []) with
  | .obj fields => .obj (objSpread settingsDefaults fields)
  | _ => .obj (objSpread settingsDefaults [])

/-- Model of `settingsStorage.save`. -/
def save (settings : JsValue) (s : Store) : Store :=
  s.setItem STORAGE_KEYS.SETTINGS (.wellFormed settings)

end settingsStorage

/-- Model of the module-level reader in `goals.js`:
`let goals = JSON.parse(localStorage.getItem('savingsGoals')) || [];`.
There is no try/catch here: `JSON.parse` on a missing key receives `null`
and yields `null` (falsy, so `|| []` applies), but on a malformed string it
throws and the exception escapes to the caller, modelled as `.error ()`. -/
def goalsModuleInit (s : Store) : Except Unit JsValue :=
  match s.getItem "savingsGoals" with
  | .absent => .ok (.arr [])
  | .malformed => .error ()
  | .wellFormed v => .ok (if v.truthy then v else .arr [])

/-- Model of the module-level reader of `spendingItems` in the spending
module: `let spendingItems = JSON.parse(localStorage.getItem('spendingItems')) || [];`
with the same uncaught-throw behaviour as `goalsModuleInit`. -/
def spendingItemsInit (s : Store) : Except Unit JsValue :=
  match s.getItem "spendingItems" with
  | .absent => .ok (.arr [])
  | .malformed => .error ()
  | .wellFormed v => .ok (if v.truthy then v else .arr [])

/-- One cache entry as written by `cacheStorage.set`: the cached value, the
`Date.now()` write timestamp, and the optional time-to-live (`null` when the
caller omitted it). -/
structure CacheEntry : Type where
  data : JsValue
  timestamp : ℤ
  ttl : Option ℤ

/-- The in-memory cache object: category name to key to entry. -/
abbrev Cache : Type := List (String × List (String × CacheEntry))

/-- Read `cache[category] && cache[category][key]` as an optional entry. -/
def lookupEntry (c : Cache) (category key : String) : Option CacheEntry :=
  (alookup c category).bind (fun kvs => alookup kvs key)

namespace cacheStorage

/-- The expiry test shared by `get` and `clearExpired`:
`entry.ttl && Date.now() - entry.timestamp > entry.ttl`.  A `null` or zero
`ttl` is falsy, so such an entry never counts as expired. -/
def expiredAt (now : ℤ) (e : CacheEntry) : Bool :=
  match e.ttl with
  | none => false
  | some t => decide (t ≠ 0) && decide (now - e.timestamp > t)

/-- Model of `cacheStorage.set(category, key, value, ttl)`: create the
category object if missing, then write the entry with the current
timestamp (the final `save` to localStorage is assumed to succeed). -/
def set (now : ℤ) (category key : String) (value : JsValue) (ttl : Option ℤ) :
    Cache → Cache
  | [] => [(category, [(key, ⟨value, now, ttl⟩)])]
  | (cat, kvs) :: rest =>
    if cat = category then (cat, aset kvs key ⟨value, now, ttl⟩) :: rest
    else (cat, kvs) :: set now category key value ttl rest

/-- Model of `cacheStorage.delete(category, key)`: remove the entry if it is
present, otherwise leave the cache unchanged. -/
def delete (category key : String) : Cache → Cache
  | [] => []
  | (cat, kvs) :: rest =>
    if cat = category then
      (if (alookup kvs key).isSome then (cat, aerase kvs key) :: rest
       else (cat, kvs) :: rest)
    else (cat, kvs) :: delete category key rest

/-- Model of `cacheStorage.get(category, key)`: `null` when absent; when the
entry is present and `entry.ttl && now - entry.timestamp > entry.ttl`, the
entry is deleted as a side effect and `null` is returned; otherwise the
stored value is returned.  The pair is (returned value, cache afterwards). -/
def get (now : ℤ) (category key : String) (c : Cache) : Option JsValue × Cache :=
  match alookup c category with
  | none => (none, c)
  | some kvs =>
    match alookup kvs key with
    | none => (none, c)
    | some entry =>
      if expiredAt now entry then (none, delete category key c)
      else (some entry.data, c)

/-- Model of `cacheStorage.isValid(category, key, maxAge)`: present and
`Date.now() - timestamp < maxAge`; the stored `ttl` plays no part and the
cache is not written (the second component is returned for emphasis). -/
def isValid (now : ℤ) (category key : String) (maxAge : ℤ) (c : Cache) :
    Bool × Cache :=
  match alookup c category with
  | none => (false, c)
  | some kvs =>
    match alookup kvs key with
    | none => (false, c)
    | some entry => (decide (now - entry.timestamp < maxAge), c)

/-- Model of `cacheStorage.clearExpired()`: sweep every category, delete the
entries passing the `expiredAt` test, and count the deletions. -/
def clearExpired (now : ℤ) : Cache → ℕ × Cache
  | [] => (0, [])
  | (cat, kvs) :: rest =>
    let r := clearExpired now rest
    (kvs.countP (fun kv => expiredAt now kv.2) + r.1,
     (cat, kvs.filter (fun kv => !expiredAt now kv.2)) :: r.2)

/-- The `totalEntries` count of `cacheStorage.getStats()`. -/
def totalEntries (c : Cache) : ℕ :=
  (c.map (fun ckvs => ckvs.2.length)).sum

/-- Model of `cacheStorage.getStats()`: the total entry count and the
per-category counts. -/
def getStats (c : Cache) : ℕ × List (String × ℕ) :=
  (totalEntries c, c.map (fun ckvs => (ckvs.1, ckvs.2.length)))

end cacheStorage

/-- Well-formedness of a cache state as a JavaScript object of objects:
category names are distinct and the keys inside each category are
distinct (JavaScript objects cannot hold duplicate keys). -/
def wfCache (c : Cache) : Prop :=
  (c.map Prod.fst).Nodup ∧ ∀ ckvs ∈ c, (ckvs.2.map Prod.fst).Nodup

instance (c : Cache) : Decidable (wfCache c) := by
  unfold wfCache; infer_instance

/-- One savings goal as built by `addGoal` in `goals.js`. -/
structure Goal : Type where
  id : ℤ
  name : String
  targetAmount : ℚ
  currentProgress : ℚ
  deadline : Option String
  dateCreated : String
  deriving DecidableEq, Repr

/-- Model of `Math.round` on the exact rationals that stand in for
JavaScript numbers: round half away from zero becomes half toward positive
infinity in JavaScript, which is floor of `q + 1/2`. -/
def jsRound (q : ℚ) : ℤ := ⌊q + 1/2⌋

/-- Model of `calculatePercentage(current, target)` from `goals.js`:
zero target gives 0, otherwise `Math.min(Math.round(current/target*100), 100)`. -/
def calculatePercentage (current target : ℚ) : ℤ :=
  if target = 0 then 0 else min (jsRound (current / target * 100)) 100

/-- The goal-card progress caption rendered by `createGoalCard`. -/
def goalPercentageText (percentage : ℤ) : String :=
  toString percentage ++ "% Complete"

/-- Model of `addGoal(name, targetAmount, currentProgress, deadline)` from
`goals.js`; the `Date.now()` id and the `dateCreated` ISO string are passed
in explicitly.  Returns the new goal and the updated goals array. -/
def addGoal (idNow : ℤ) (nowIso : String) (name : String)
    (targetAmount currentProgress : ℚ) (deadline : Option String)
    (goals : List Goal) : Goal × List Goal :=
  let goal : Goal :=
    { id := idNow, name := name, targetAmount := targetAmount,
      currentProgress := currentProgress, deadline := deadline,
      dateCreated := nowIso }
  (goal, goals ++ [goal])

/-- First goal with a given id, as `goals.find(g => g.id === goalId)`. -/
def findGoal (goalId : ℤ) : List Goal → Option Goal
  | [] => none
  | g :: gs => if g.id = goalId then some g else findGoal goalId gs

/-- Model of `updateGoalProgress(goalId, newProgress)` from `goals.js`: the
first goal with the id gets `currentProgress = parseFloat(newProgress)`,
with no clamping; a missing id leaves the array unchanged. -/
def updateGoalProgress (goalId : ℤ) (newProgress : ℚ) : List Goal → List Goal
  | [] => []
  | g :: gs =>
    if g.id = goalId then { g with currentProgress := newProgress } :: gs
    else g :: updateGoalProgress goalId newProgress gs

/-- Model of `quickAddProgress(goalId, amount)` from `goals.js`: add the
amount to the first matching goal's progress, then clamp the stored value
down to `targetAmount` when the sum exceeds it. -/
def quickAddProgress (goalId : ℤ) (amount : ℚ) : List Goal → List Goal
  | [] => []
  | g :: gs =>
    if g.id = goalId then
      let raised := g.currentProgress + amount
      { g with currentProgress :=
          if raised > g.targetAmount then g.targetAmount else raised } :: gs
    else g :: quickAddProgress goalId amount gs

/-- An extended JavaScript number: either a finite value (an exact rational
standing in for a float) or one of the non-finite values `NaN`,
`Infinity`, `-Infinity` that division by zero produces. -/
inductive JsNum : Type
  | fin (q : ℚ)
  | nan
  | inf
  | ninf
  deriving DecidableEq, Repr

/-- JavaScript division of two finite numbers: `0/0` is `NaN` and `a/0` for
nonzero `a` is a signed infinity. -/
def jsDiv (a b : ℚ) : JsNum :=
  if b = 0 then (if a = 0 then .nan else if a > 0 then .inf else .ninf)
  else .fin (a / b)

/-- Multiply a JavaScript number by a finite constant: `Infinity * 0 = NaN`,
and nonzero constants keep or flip the infinity sign. -/
def jsMulC (x : JsNum) (c : ℚ) : JsNum :=
  match x with
  | .fin q => .fin (q * c)
  | .nan => .nan
  | .inf => if c = 0 then .nan else if c > 0 then .inf else .ninf
  | .ninf => if c = 0 then .nan else if c > 0 then .ninf else .inf

/-- Add a finite constant on the left of a JavaScript number. -/
def jsAddC (c : ℚ) (x : JsNum) : JsNum :=
  match x with
  | .fin q => .fin (c + q)
  | .nan => .nan
  | .inf => .inf
  | .ninf => .ninf

/-- Subtract a JavaScript number from a finite constant. -/
def jsSubFrom (c : ℚ) (x : JsNum) : JsNum :=
  match x with
  | .fin q => .fin (c - q)
  | .nan => .nan
  | .inf => .ninf
  | .ninf => .inf

/-- `Math.min(...prices)` over a non-empty list (the renderers return early
on empty input, so the `[]` case is unreachable there). -/
def minPrices : List ℚ → ℚ
  | [] => 0
  | p :: ps => ps.foldl min p

/-- `Math.max(...prices)` over a non-empty list. -/
def maxPrices : List ℚ → ℚ
  | [] => 0
  | p :: ps => ps.foldl max p

-- The coordinate mapping of `createStockChart` in
-- `final_project_fz/scripts/chart.js`: canvas 800x400, `padding = 50`, so
-- `chartWidth = 700` and `chartHeight = 300`.  The price list is the
-- `prices` array after the renderer reverses the input into chronological
-- order.  Note there is no guard on `priceRange` here.
namespace createStockChart

def padding : ℚ := 50
def chartWidth : ℚ := 800 - padding * 2
def chartHeight : ℚ := 400 - padding * 2

/-- `priceRange = maxPrice - minPrice`, with no divide-by-zero guard. -/
def priceRange (prices : List ℚ) : ℚ := maxPrices prices - minPrices prices

/-- The pixel x of point `index`:
`padding + (chartWidth / (prices.length - 1)) * index`. -/
def xCoord (prices : List ℚ) (index : ℕ) : JsNum :=
  jsAddC padding (jsMulC (jsDiv chartWidth ((prices.length : ℚ) - 1)) (index : ℚ))

/-- The pixel y of point `index`:
`padding + chartHeight - ((price - minPrice) / priceRange) * chartHeight`. -/
def yCoord (prices : List ℚ) (index : ℕ) : JsNum :=
  jsSubFrom (padding + chartHeight)
    (jsMulC (jsDiv (prices.getD index 0 - minPrices prices) (priceRange prices))
      chartHeight)

end createStockChart

-- The coordinate mapping of `displayStockChart` in the portfolio module:
-- canvas 800x400, `padding = 60`, so `chartWidth = 680` and
-- `chartHeight = 280`; here `priceRange = (maxPrice - minPrice) || 1`.
namespace displayStockChart

def padding : ℚ := 60
def chartWidth : ℚ := 800 - padding * 2
def chartHeight : ℚ := 400 - padding * 2

/-- `priceRange = maxPrice - minPrice || 1`: the JavaScript or-guard
replaces a zero (falsy) range by 1. -/
def priceRange (prices : List ℚ) : ℚ :=
  if maxPrices prices - minPrices prices = 0 then 1
  else maxPrices prices - minPrices prices

/-- The pixel x of point `index`, same shape as in `createStockChart`. -/
def xCoord (prices : List ℚ) (index : ℕ) : JsNum :=
  jsAddC padding (jsMulC (jsDiv chartWidth ((prices.length : ℚ) - 1)) (index : ℚ))

/-- The pixel y of point `index`, using the guarded range. -/
def yCoord (prices : List ℚ) (index : ℕ) : JsNum :=
  jsSubFrom (padding + chartHeight)
    (jsMulC (jsDiv (prices.getD index 0 - minPrices prices) (priceRange prices))
      chartHeight)

end displayStockChart

/-- Evaluation rule for the `Math.round` model via `Int.floor_eq_iff`. -/
lemma jsRound_eq (q : ℚ) (n : ℤ) (h1 : (n : ℚ) ≤ q + 1/2) (h2 : q + 1/2 < n + 1) :
    jsRound q = n := by
  unfold jsRound
  rw [Int.floor_eq_iff]
  exact ⟨h1, h2⟩

/-- Claim C3: the claim says every persisted-collection reader returns the
empty default on an absent or malformed stored string and never throws.
The `storage.js` readers (via `safeParse`) do exactly that, but the
module-level readers in `goals.js` and the spending module call
`JSON.parse` with no try/catch, so a malformed stored string makes the
exception escape.  This theorem evaluates the embedded readers at the
failing input (a malformed cell) and at an absent cell. -/
theorem claim_C3_code_evaluation :
    goalsModuleInit (fun _ => StoredCell.malformed) = .error ()
    ∧ spendingItemsInit (fun _ => StoredCell.malformed) = .error ()
    ∧ goalsModuleInit (fun _ => StoredCell.absent) = .ok (JsValue.arr [])
    ∧ portfolioStorage.load (fun _ => StoredCell.malformed) = JsValue.arr []
    ∧ portfolioStorage.load (fun _ => StoredCell.absent) = JsValue.arr [] :=
  ⟨rfl, rfl, rfl, rfl, rfl⟩

/-- Claim C5: the claim says a single-point series renders with only finite
coordinates.  In the code a one-point series makes `chartWidth / (n - 1)` a
division by zero; the resulting `Infinity * 0` gives `NaN` for the point's
x in both renderers, and the unguarded `0 / 0` price range gives `NaN` for
y in `createStockChart` as well.  This theorem evaluates the embedded
coordinate maps at the failing input, the one-point series `[100]`. -/
theorem claim_C5_code_evaluation :
    createStockChart.xCoord [100] 0 = JsNum.nan
    ∧ createStockChart.yCoord [100] 0 = JsNum.nan
    ∧ displayStockChart.xCoord [100] 0 = JsNum.nan := by
  refine ⟨?_, ?_, ?_⟩
  · norm_num [createStockChart.xCoord, createStockChart.chartWidth,
      createStockChart.padding, jsDiv, jsMulC, jsAddC]
  · norm_num [createStockChart.yCoord, createStockChart.priceRange, minPrices,
      maxPrices, jsDiv, jsMulC, jsSubFrom]
  · norm_num [displayStockChart.xCoord, displayStockChart.chartWidth,
      displayStockChart.padding, jsDiv, jsMulC, jsAddC]

/-- Claim C6, counterexample: the claim includes `settings` among the
collections with `save(x); load() == x`, but `settingsStorage.load` merges
the parsed value over `defaults`, so saving the empty object and loading
returns the defaults object, not the empty object. -/
theorem claim_C6_counterexample :
    settingsStorage.load
        (settingsStorage.save (JsValue.obj []) (fun _ => StoredCell.absent))
      ≠ JsValue.obj [] := by
  intro h
  have h2 : settingsStorage.load
      (settingsStorage.save (JsValue.obj []) (fun _ => StoredCell.absent))
      = JsValue.obj settingsDefaults := rfl
  rw [h2] at h
  injection h with h3
  simp [settingsDefaults] at h3

/-- Claim C6, amended: `save(x); load() == x` holds for every value of the
four list collections (portfolio, transactions, expenses, goals); for
settings, `load` after `save(x)` returns `x` spread over the defaults
object, which differs from `x` whenever `x` lacks a default key. -/
theorem claim_C6_amended (x : JsValue) (s : Store) :
    portfolioStorage.load (portfolioStorage.save x s) = x
    ∧ transactionStorage.load (transactionStorage.save x s) = x
    ∧ expenseStorage.load (expenseStorage.save x s) = x
    ∧ goalStorage.load (goalStorage.save x s) = x
    ∧ ∀ fields, settingsStorage.load (settingsStorage.save (JsValue.obj fields) s)
        = JsValue.obj (objSpread settingsDefaults fields) :=
  ⟨rfl, rfl, rfl, rfl, fun _ => rfl⟩

/-- Claim C7: adding a goal with `targetAmount` 1000 and `currentProgress`
250 yields a computed percentage of 25, displayed as "25% Complete"; after
`quickAddProgress(id, 900)` the stored `currentProgress` is exactly 1000
(clamped to `targetAmount`) and the percentage is 100, displayed as
"100% Complete". -/
theorem claim_C7_scenario :
    (addGoal 42 "t0" "Emergency Fund" 1000 250 none []).1.currentProgress = 250
    ∧ calculatePercentage 250 1000 = 25
    ∧ goalPercentageText (calculatePercentage 250 1000) = "25% Complete"
    ∧ findGoal 42
        (quickAddProgress 42 900 (addGoal 42 "t0" "Emergency Fund" 1000 250 none []).2)
        = some ⟨42, "Emergency Fund", 1000, 1000, none, "t0"⟩
    ∧ calculatePercentage 1000 1000 = 100
    ∧ goalPercentageText (calculatePercentage 1000 1000) = "100% Complete" := by
  have hr1 : jsRound (250 / 1000 * 100 : ℚ) = 25 := jsRound_eq _ _ (by norm_num) (by norm_num)
  have hr2 : jsRound (1000 / 1000 * 100 : ℚ) = 100 := jsRound_eq _ _ (by norm_num) (by norm_num)
  have hp1 : calculatePercentage 250 1000 = 25 := by
    unfold calculatePercentage
    rw [if_neg (by norm_num : ¬(1000 : ℚ) = 0), hr1]
    norm_num
  have hp2 : calculatePercentage 1000 1000 = 100 := by
    unfold calculatePercentage
    rw [if_neg (by norm_num : ¬(1000 : ℚ) = 0), hr2]
    norm_num
  refine ⟨rfl, hp1, ?_, ?_, hp2, ?_⟩
  · rw [hp1]; decide
  · norm_num [addGoal, quickAddProgress, findGoal]
  · rw [hp2]; decide

/-- Writing a key makes it the first-occurrence value. -/
lemma alookup_aset {β : Type} (l : List (String × β)) (key : String) (v : β) :
    alookup (aset l key v) key = some v := by
  induction l with
  | nil => simp [aset, alookup]
  | cons hd tl ih =>
    obtain ⟨k, w⟩ := hd
    by_cases hk : k = key
    · simp [aset, alookup, hk]
    · simp [aset, alookup, hk, ih]

/-- After `cacheStorage.set`, the written coordinate holds the new entry. -/
lemma lookupEntry_set (now : ℤ) (cat key : String) (v : JsValue) (ttl : Option ℤ)
    (c : Cache) :
    lookupEntry (cacheStorage.set now cat key v ttl c) cat key
      = some ⟨v, now, ttl⟩ := by
  induction c with
  | nil => simp [cacheStorage.set, lookupEntry, alookup, aset]
  | cons hd tl ih =>
    obtain ⟨a, kvs⟩ := hd
    by_cases ha : a = cat
    · simp [cacheStorage.set, lookupEntry, alookup, ha, alookup_aset]
    · simpa [cacheStorage.set, lookupEntry, alookup, ha] using ih

/-- Erasing a present key shortens the list by exactly one. -/
lemma length_aerase_of_lookup {β : Type} (l : List (String × β)) (key : String)
    (v : β) (h : alookup l key = some v) :
    (aerase l key).length + 1 = l.length := by
  induction l with
  | nil => simp [alookup] at h
  | cons hd tl ih =>
    obtain ⟨k, w⟩ := hd
    by_cases hk : k = key
    · simp [aerase, hk]
    · simp only [alookup, hk, if_false] at h
      simp [aerase, hk, ih h]

/-- Deleting a present entry decrements the `getStats` total by one. -/
lemma totalEntries_delete (c : Cache) (cat key : String) (e : CacheEntry)
    (h : lookupEntry c cat key = some e) :
    cacheStorage.totalEntries (cacheStorage.delete cat key c) + 1
      = cacheStorage.totalEntries c := by
  induction c with
  | nil => simp [lookupEntry, alookup] at h
  | cons hd tl ih =>
    obtain ⟨a, kvs⟩ := hd
    by_cases ha : a = cat
    · simp only [lookupEntry, alookup, ha, if_true, Option.some_bind] at h
      have hsome : (alookup kvs key).isSome := by rw [h]; rfl
      simp only [cacheStorage.delete, ha, if_true, hsome]
      simp only [cacheStorage.totalEntries, List.map_cons, List.sum_cons]
      have := length_aerase_of_lookup kvs key e h
      omega
    · simp only [lookupEntry, alookup, ha, if_false] at h
      have ih2 := ih h
      simp only [cacheStorage.delete, ha, if_false]
      simp only [cacheStorage.totalEntries, List.map_cons, List.sum_cons] at ih2 ⊢
      omega

/-- Claim C1, counterexample: the claim says `get` returns the stored value
iff `now - timestamp < ttl`.  At the boundary `now - timestamp = ttl` the
code's strict `>` expiry test keeps the entry and `get` returns the stored
value even though `now - timestamp < ttl` fails, so the claimed
equivalence is false. -/
theorem claim_C1_counterexample :
    (cacheStorage.get 100 "stockPrices" "AAPL"
        [("stockPrices", [("AAPL", ⟨JsValue.num 150, 0, some 100⟩)])]).1
      = some (JsValue.num 150)
    ∧ ¬((100 : ℤ) - 0 < 100) :=
  ⟨rfl, by norm_num⟩

/-- Claim C1, amended: for an entry whose stored `ttl` is non-null and
non-zero, `get` returns the stored value iff `now - timestamp ≤ ttl`
(the code expires only on strict exceedance); when it instead expires, it
returns null and deletes the entry, so the `getStats` total drops by one. -/
theorem claim_C1_amended (c : Cache) (now : ℤ) (cat key : String)
    (e : CacheEntry) (t : ℤ) (hfound : lookupEntry c cat key = some e)
    (httl : e.ttl = some t) (hnz : t ≠ 0) :
    ((cacheStorage.get now cat key c).1 = some e.data ↔ now - e.timestamp ≤ t)
    ∧ (t < now - e.timestamp →
        (cacheStorage.get now cat key c).1 = none
        ∧ cacheStorage.totalEntries (cacheStorage.get now cat key c).2 + 1
            = cacheStorage.totalEntries c) := by
  obtain ⟨kvs, hcat, hkey⟩ := Option.bind_eq_some.mp hfound
  have hexp : cacheStorage.expiredAt now e = decide (now - e.timestamp > t) := by
    simp [cacheStorage.expiredAt, httl, hnz]
  by_cases hlate : now - e.timestamp > t
  · have hget : cacheStorage.get now cat key c
        = (none, cacheStorage.delete cat key c) := by
      unfold cacheStorage.get
      rw [hcat]
      dsimp only
      rw [hkey]
      dsimp only
      rw [hexp]
      simp [hlate]
    refine ⟨?_, fun _ => ⟨by rw [hget], ?_⟩⟩
    · rw [hget]
      simp
      omega
    · rw [hget]
      exact totalEntries_delete c cat key e hfound
  · have hget : cacheStorage.get now cat key c = (some e.data, c) := by
      unfold cacheStorage.get
      rw [hcat]
      dsimp only
      rw [hkey]
      dsimp only
      rw [hexp]
      simp [hlate]
    refine ⟨?_, fun hcontra => absurd hcontra hlate⟩
    rw [hget]
    simp
    omega

/-- Claim C1, witness: the amended equivalence instantiated at a concrete
fresh entry (written at time 0 with ttl 100, read at time 50). -/
theorem claim_C1_witness :
    ((cacheStorage.get 50 "stockPrices" "AAPL"
        [("stockPrices", [("AAPL", ⟨JsValue.num 150, 0, some 100⟩)])]).1
      = some (JsValue.num 150) ↔ (50 : ℤ) - 0 ≤ 100) :=
  (claim_C1_amended
    [("stockPrices", [("AAPL", ⟨JsValue.num 150, 0, some 100⟩)])]
    50 "stockPrices" "AAPL" ⟨JsValue.num 150, 0, some 100⟩ 100
    rfl rfl (by norm_num)).1

/-- Claim C9: `isValid(category, key, maxAge)` is true iff the entry is
present and its age `now - timestamp` is strictly below the caller's
`maxAge`, independently of the stored `ttl`; it never writes the cache, and
in particular an entry whose stored `ttl` has elapsed is still reported
valid whenever its age is below `maxAge`. -/
theorem claim_C9_isValid (c : Cache) (now : ℤ) (cat key : String) (maxAge : ℤ) :
    ((cacheStorage.isValid now cat key maxAge c).1 = true ↔
      ∃ e, lookupEntry c cat key = some e ∧ now - e.timestamp < maxAge)
    ∧ (cacheStorage.isValid now cat key maxAge c).2 = c
    ∧ (∀ e, lookupEntry c cat key = some e → cacheStorage.expiredAt now e = true →
        now - e.timestamp < maxAge →
        (cacheStorage.isValid now cat key maxAge c).1 = true) := by
  unfold cacheStorage.isValid
  cases hcat : alookup c cat with
  | none => simp [lookupEntry, hcat]
  | some kvs =>
    dsimp only
    cases hkey : alookup kvs key with
    | none => simp [lookupEntry, hcat, hkey]
    | some e =>
      dsimp only
      refine ⟨?_, rfl, ?_⟩
      · simp [lookupEntry, hcat, hkey]
      · intro e2 he2 _ hage
        simp only [lookupEntry, hcat, Option.some_bind, hkey,
          Option.some.injEq] at he2
        subst he2
        simpa using hage

/-- Claim C9, witness: an entry written at time 0 with ttl 100, read at
time 1000 (so its stored ttl has long elapsed), is still reported valid
under the caller-supplied threshold 5000. -/
theorem claim_C9_witness :
    (cacheStorage.isValid 1000 "stockPrices" "AAPL" 5000
        [("stockPrices", [("AAPL", ⟨JsValue.num 150, 0, some 100⟩)])]).1 = true :=
  (claim_C9_isValid
    [("stockPrices", [("AAPL", ⟨JsValue.num 150, 0, some 100⟩)])]
    1000 "stockPrices" "AAPL" 5000).2.2
    ⟨JsValue.num 150, 0, some 100⟩ rfl rfl (by norm_num)

/-- Filtering keeps a first-occurrence binding that satisfies the filter. -/
lemma alookup_filter_keep {β : Type} (l : List (String × β))
    (p : String × β → Bool) (key : String) (v : β)
    (hl : alookup l key = some v) (hp : p (key, v) = true) :
    alookup (l.filter p) key = some v := by
  induction l with
  | nil => simp [alookup] at hl
  | cons hd tl ih =>
    obtain ⟨k, w⟩ := hd
    by_cases hk : k = key
    · subst hk
      simp only [alookup, if_true] at hl
      cases hl
      simp [List.filter_cons, hp, alookup]
    · simp only [alookup, hk, if_false] at hl
      cases hpk : p (k, w) <;> simp [List.filter_cons, hpk, alookup, hk, ih hl]

/-- `clearExpired` maps each category to its filtered entry list and keeps
the category structure. -/
lemma clearExpired_alookup (now : ℤ) (c : Cache) (cat : String) :
    alookup (cacheStorage.clearExpired now c).2 cat
      = (alookup c cat).map
          (fun kvs => kvs.filter (fun kv => !cacheStorage.expiredAt now kv.2)) := by
  induction c with
  | nil => rfl
  | cons hd tl ih =>
    obtain ⟨a, kvs⟩ := hd
    by_cases ha : a = cat
    · simp [cacheStorage.clearExpired, alookup, ha]
    · simp [cacheStorage.clearExpired, alookup, ha, ih]

/-- Claim C10: an entry stored with `ttl = 0` is treated as never expiring,
because the expiry checks in `get` and `clearExpired` require a truthy
`ttl`: at any later read time `get` returns the stored value, and
`clearExpired` leaves the entry in place. -/
theorem claim_C10_ttl_zero (c : Cache) (now0 now1 : ℤ) (cat key : String)
    (v : JsValue) :
    (cacheStorage.get now1 cat key (cacheStorage.set now0 cat key v (some 0) c)).1
      = some v
    ∧ lookupEntry
        (cacheStorage.clearExpired now1 (cacheStorage.set now0 cat key v (some 0) c)).2
        cat key
      = some ⟨v, now0, some 0⟩ := by
  have hset := lookupEntry_set now0 cat key v (some 0) c
  obtain ⟨kvs, hcat, hkey⟩ := Option.bind_eq_some.mp hset
  have hnoexp : cacheStorage.expiredAt now1 ⟨v, now0, some 0⟩ = false := by
    simp [cacheStorage.expiredAt]
  constructor
  · unfold cacheStorage.get
    rw [hcat]
    dsimp only
    rw [hkey]
    dsimp only
    rw [hnoexp]
    simp
  · rw [lookupEntry, clearExpired_alookup, hcat]
    simp only [Option.map_some', Option.some_bind]
    exact alookup_filter_keep kvs _ key _ hkey (by rw [hnoexp]; rfl)

/-- Claim C8, counterexample: the claim says no mutation operation ever
clamps the stored `currentProgress`, but `quickAddProgress` does clamp:
adding 900 to a goal at 250 of 1000 stores exactly 1000, not 1150. -/
theorem claim_C8_counterexample :
    findGoal 1 (quickAddProgress 1 900 [⟨1, "Emergency Fund", 1000, 250, none, "t0"⟩])
      = some ⟨1, "Emergency Fund", 1000, 1000, none, "t0"⟩
    ∧ (1000 : ℚ) ≠ 250 + 900 := by
  constructor
  · norm_num [findGoal, quickAddProgress]
  · norm_num

/-- Claim C8, amended: the display computation clamps the percentage to at
most 100, and `updateGoalProgress` stores the new amount without clamping
(so the stored value can exceed `targetAmount`), but `quickAddProgress`
does clamp the stored value down to `targetAmount`. -/
theorem claim_C8_amended :
    (∀ current target : ℚ, calculatePercentage current target ≤ 100)
    ∧ (∀ (gs : List Goal) (gid : ℤ) (amt : ℚ) (g : Goal),
        findGoal gid gs = some g →
        findGoal gid (updateGoalProgress gid amt gs)
          = some { g with currentProgress := amt })
    ∧ (∀ (gs : List Goal) (gid : ℤ) (amt : ℚ) (g : Goal),
        findGoal gid gs = some g →
        findGoal gid (quickAddProgress gid amt gs)
          = some { g with currentProgress := min (g.currentProgress + amt) g.targetAmount }) := by
  refine ⟨?_, ?_, ?_⟩
  · intro current target
    unfold calculatePercentage
    split
    · norm_num
    · exact min_le_right _ _
  · intro gs gid amt g h
    induction gs with
    | nil => simp [findGoal] at h
    | cons g0 tl ih =>
      by_cases h0 : g0.id = gid
      · simp only [findGoal, h0, if_true, Option.some.injEq] at h
        subst h
        simp [updateGoalProgress, findGoal, h0]
      · simp only [findGoal, h0, if_false] at h
        simp [updateGoalProgress, findGoal, h0, ih h]
  · intro gs gid amt g h
    induction gs with
    | nil => simp [findGoal] at h
    | cons g0 tl ih =>
      by_cases h0 : g0.id = gid
      · simp only [findGoal, h0, if_true, Option.some.injEq] at h
        subst h
        simp only [quickAddProgress, h0, if_true, findGoal]
        have harith :
            (if g0.currentProgress + amt > g0.targetAmount then g0.targetAmount
             else g0.currentProgress + amt)
            = min (g0.currentProgress + amt) g0.targetAmount := by
          rcases le_or_lt (g0.currentProgress + amt) g0.targetAmount with hle | hlt
          · rw [if_neg (not_lt.mpr hle), min_eq_left hle]
          · rw [if_pos hlt, min_eq_right hlt.le]
        simp [harith]
      · simp only [findGoal, h0, if_false] at h
        simp [quickAddProgress, findGoal, h0, ih h]

/-- Claim C8, witness: the amended statement applied to a concrete goal —
`updateGoalProgress` stores 5000 on a goal with target 1000 without any
clamping. -/
theorem claim_C8_witness :
    findGoal 1 (updateGoalProgress 1 5000 [⟨1, "Emergency Fund", 1000, 250, none, "t0"⟩])
      = some ⟨1, "Emergency Fund", 1000, 5000, none, "t0"⟩ :=
  claim_C8_amended.2.1 [⟨1, "Emergency Fund", 1000, 250, none, "t0"⟩] 1 5000
    ⟨1, "Emergency Fund", 1000, 250, none, "t0"⟩ rfl

/-- Counting a predicate and keeping its complement partitions a list. -/
lemma countP_add_length_filter {α : Type} (p : α → Bool) (l : List α) :
    l.countP p + (l.filter (fun a => !p a)).length = l.length := by
  rw [List.countP_eq_length_filter]
  have hsplit := List.length_eq_length_filter_add (l := l) p
  omega

/-- The count returned by `clearExpired` is exactly the drop in the
`getStats` total. -/
lemma clearExpired_count (now : ℤ) (c : Cache) :
    (cacheStorage.clearExpired now c).1
      + cacheStorage.totalEntries (cacheStorage.clearExpired now c).2
      = cacheStorage.totalEntries c := by
  induction c with
  | nil => rfl
  | cons hd tl ih =>
    obtain ⟨a, kvs⟩ := hd
    simp only [cacheStorage.clearExpired, cacheStorage.totalEntries,
      List.map_cons, List.sum_cons] at ih ⊢
    have hpart := countP_add_length_filter
      (fun kv => cacheStorage.expiredAt now kv.2) kvs
    omega

/-- A key outside the key list never resolves. -/
lemma alookup_none_of_not_mem {β : Type} (l : List (String × β)) (key : String)
    (h : key ∉ l.map Prod.fst) : alookup l key = none := by
  induction l with
  | nil => rfl
  | cons hd tl ih =>
    obtain ⟨k, v⟩ := hd
    simp only [List.map_cons, List.mem_cons] at h
    push_neg at h
    have hk : k ≠ key := fun he => h.1 he.symm
    simp [alookup, hk, ih h.2]

/-- A successful first-occurrence lookup is a member of the list. -/
lemma alookup_mem {β : Type} (l : List (String × β)) (key : String) (v : β)
    (h : alookup l key = some v) : (key, v) ∈ l := by
  induction l with
  | nil => simp [alookup] at h
  | cons hd tl ih =>
    obtain ⟨k, w⟩ := hd
    by_cases hk : k = key
    · subst hk
      simp only [alookup, if_true] at h
      cases h
      exact List.mem_cons_self _ _
    · simp only [alookup, hk, if_false] at h
      exact List.mem_cons_of_mem _ (ih h)

/-- On a duplicate-free key list, lookup in a filtered list is lookup
followed by the filter test. -/
lemma alookup_filter_nodup {β : Type} (l : List (String × β))
    (p : String × β → Bool) (key : String) (hnd : (l.map Prod.fst).Nodup) :
    alookup (l.filter p) key
      = (alookup l key).bind (fun v => if p (key, v) = true then some v else none) := by
  induction l with
  | nil => rfl
  | cons hd tl ih =>
    obtain ⟨k, v⟩ := hd
    simp only [List.map_cons, List.nodup_cons] at hnd
    obtain ⟨hk_not, hnd_tl⟩ := hnd
    by_cases hk : k = key
    · subst hk
      cases hpv : p (k, v)
      · simp only [List.filter_cons, hpv, cond_false]
        have hnone : alookup (tl.filter p) k = none := by
          apply alookup_none_of_not_mem
          intro hmem
          apply hk_not
          obtain ⟨x, hx, hfx⟩ := List.mem_map.mp hmem
          exact List.mem_map.mpr ⟨x, List.mem_of_mem_filter hx, hfx⟩
        simp [hnone, alookup, hpv]
      · simp [List.filter_cons, hpv, alookup]
    · cases hpv : p (k, v)
      · simp [List.filter_cons, hpv, alookup, hk, ih hnd_tl]
      · simp [List.filter_cons, hpv, alookup, hk, ih hnd_tl]

/-- Claim C2, counterexample: the claim says `clearExpired` deletes exactly
the entries whose stored non-null `ttl` has elapsed.  An entry stored with
`ttl = 0` has a non-null ttl that any positive age exceeds, yet the falsy
check `entry.ttl && ...` skips it: at time 10 the sweep removes nothing and
returns 0. -/
theorem claim_C2_counterexample :
    cacheStorage.clearExpired 10
        [("stockPrices", [("AAPL", ⟨JsValue.num 150, 0, some 0⟩)])]
      = (0, [("stockPrices", [("AAPL", ⟨JsValue.num 150, 0, some 0⟩)])])
    ∧ ((10 : ℤ) - 0 > 0) :=
  ⟨rfl, by norm_num⟩

/-- Claim C2, amended: on a well-formed cache, `clearExpired` deletes
exactly the entries whose `ttl` is non-null, non-zero, and strictly
exceeded by the entry's age (the `expiredAt` test); entries with null
`ttl` survive regardless of age, and the returned count is exactly the
number of removed entries (the drop in the `getStats` total). -/
theorem claim_C2_amended (now : ℤ) (c : Cache) (hwf : wfCache c) :
    ((cacheStorage.clearExpired now c).1
        + cacheStorage.totalEntries (cacheStorage.clearExpired now c).2
      = cacheStorage.totalEntries c)
    ∧ (∀ cat key e,
        lookupEntry (cacheStorage.clearExpired now c).2 cat key = some e
          ↔ (lookupEntry c cat key = some e ∧ cacheStorage.expiredAt now e = false))
    ∧ (∀ cat key e, lookupEntry c cat key = some e → e.ttl = none →
        lookupEntry (cacheStorage.clearExpired now c).2 cat key = some e) := by
  have hiff : ∀ cat key e,
      lookupEntry (cacheStorage.clearExpired now c).2 cat key = some e
        ↔ (lookupEntry c cat key = some e ∧ cacheStorage.expiredAt now e = false) := by
    intro cat key e
    rw [lookupEntry, clearExpired_alookup]
    cases hcat : alookup c cat with
    | none => simp [lookupEntry, hcat]
    | some kvs =>
      have hnd : (kvs.map Prod.fst).Nodup :=
        hwf.2 (cat, kvs) (alookup_mem c cat kvs hcat)
      simp only [Option.map_some', Option.some_bind]
      rw [alookup_filter_nodup kvs _ key hnd, lookupEntry, hcat, Option.some_bind]
      cases hkey : alookup kvs key with
      | none => simp
      | some e0 =>
        simp only [Option.some_bind]
        cases hexp : cacheStorage.expiredAt now e0
        · simp only [Bool.not_false, if_true]
          constructor
          · intro he
            cases he
            exact ⟨rfl, hexp⟩
          · exact fun hpair => hpair.1
        · simp only [Bool.not_true, if_false]
          constructor
          · intro he
            cases he
          · rintro ⟨he, hf⟩
            cases he
            rw [hexp] at hf
            cases hf
  refine ⟨clearExpired_count now c, hiff, ?_⟩
  intro cat key e hfound httl
  exact (hiff cat key e).mpr ⟨hfound, by simp [cacheStorage.expiredAt, httl]⟩

/-- Claim C2, witness: the amended statement's count equation instantiated
at a concrete well-formed cache holding one expired entry and one entry
with null ttl. -/
theorem claim_C2_witness :
    (cacheStorage.clearExpired 200
        [("stockPrices", [("AAPL", ⟨JsValue.num 150, 0, some 100⟩),
                          ("MSFT", ⟨JsValue.num 300, 0, none⟩)])]).1
      + cacheStorage.totalEntries (cacheStorage.clearExpired 200
          [("stockPrices", [("AAPL", ⟨JsValue.num 150, 0, some 100⟩),
                            ("MSFT", ⟨JsValue.num 300, 0, none⟩)])]).2
      = cacheStorage.totalEntries
          [("stockPrices", [("AAPL", ⟨JsValue.num 150, 0, some 100⟩),
                            ("MSFT", ⟨JsValue.num 300, 0, none⟩)])] :=
  (claim_C2_amended 200
    [("stockPrices", [("AAPL", ⟨JsValue.num 150, 0, some 100⟩),
                      ("MSFT", ⟨JsValue.num 300, 0, none⟩)])]
    (by constructor
        · simp
        · intro ckvs hmem
          simp only [List.mem_singleton] at hmem
          subst hmem
          simp)).1

/-- A running minimum never exceeds its seed. -/
lemma foldl_min_le_init (ps : List ℚ) (a : ℚ) : ps.foldl min a ≤ a := by
  induction ps generalizing a with
  | nil => simp
  | cons p tl ih => exact le_trans (ih (min a p)) (min_le_left a p)

/-- A running minimum never exceeds any traversed element. -/
lemma foldl_min_le_mem (ps : List ℚ) (a x : ℚ) (hx : x ∈ ps) :
    ps.foldl min a ≤ x := by
  induction ps generalizing a with
  | nil => simp at hx
  | cons p tl ih =>
    rcases List.mem_cons.mp hx with rfl | hmem
    · exact le_trans (foldl_min_le_init tl (min a x)) (min_le_right a x)
    · exact ih (min a p) hmem

/-- `Math.min(...prices)` is a lower bound of the list. -/
lemma minPrices_le (ps : List ℚ) (x : ℚ) (hx : x ∈ ps) : minPrices ps ≤ x := by
  cases ps with
  | nil => simp at hx
  | cons p tl =>
    rcases List.mem_cons.mp hx with rfl | hmem
    · exact foldl_min_le_init tl x
    · exact foldl_min_le_mem tl p x hmem

/-- A running maximum never drops below its seed. -/
lemma le_foldl_max_init (ps : List ℚ) (a : ℚ) : a ≤ ps.foldl max a := by
  induction ps generalizing a with
  | nil => simp
  | cons p tl ih => exact le_trans (le_max_left a p) (ih (max a p))

/-- A running maximum never drops below any traversed element. -/
lemma le_foldl_max_mem (ps : List ℚ) (a x : ℚ) (hx : x ∈ ps) :
    x ≤ ps.foldl max a := by
  induction ps generalizing a with
  | nil => simp at hx
  | cons p tl ih =>
    rcases List.mem_cons.mp hx with rfl | hmem
    · exact le_trans (le_max_right a x) (le_foldl_max_init tl (max a x))
    · exact ih (max a p) hmem

/-- `Math.max(...prices)` is an upper bound of the list. -/
lemma le_maxPrices (ps : List ℚ) (x : ℚ) (hx : x ∈ ps) : x ≤ maxPrices ps := by
  cases ps with
  | nil => simp at hx
  | cons p tl =>
    rcases List.mem_cons.mp hx with rfl | hmem
    · exact le_foldl_max_init tl x
    · exact le_foldl_max_mem tl p x hmem

/-- An in-range index of the price list yields a member via `getD`. -/
lemma getD_mem_of_lt (ps : List ℚ) (i : ℕ) (h : i < ps.length) :
    ps.getD i 0 ∈ ps := by
  rw [List.getD_eq_getElem ps 0 h]
  exact List.getElem_mem h

/-- Evaluation of the unguarded `createStockChart` y map when the price
range is nonzero: everything stays finite. -/
lemma yCreate_eval (ps : List ℚ) (i : ℕ) (h : createStockChart.priceRange ps ≠ 0) :
    createStockChart.yCoord ps i
      = .fin (createStockChart.padding + createStockChart.chartHeight
          - (ps.getD i 0 - minPrices ps) / createStockChart.priceRange ps
            * createStockChart.chartHeight) := by
  simp [createStockChart.yCoord, jsDiv, h, jsMulC, jsSubFrom]

/-- Evaluation of the guarded `displayStockChart` y map when its (guarded)
price range is nonzero, which is always the case. -/
lemma yDisplay_eval (ps : List ℚ) (i : ℕ) (h : displayStockChart.priceRange ps ≠ 0) :
    displayStockChart.yCoord ps i
      = .fin (displayStockChart.padding + displayStockChart.chartHeight
          - (ps.getD i 0 - minPrices ps) / displayStockChart.priceRange ps
            * displayStockChart.chartHeight) := by
  simp [displayStockChart.yCoord, jsDiv, h, jsMulC, jsSubFrom]

/-- A constant list folds to its seed under `min`. -/
lemma foldl_min_const (tl : List ℚ) (p0 : ℚ) (h : ∀ x ∈ tl, x = p0) :
    tl.foldl min p0 = p0 := by
  induction tl with
  | nil => rfl
  | cons q tl ih =>
    have hq : q = p0 := h q (List.mem_cons_self q tl)
    subst hq
    simp only [List.foldl_cons, min_self]
    exact ih (fun x hx => h x (List.mem_cons_of_mem q hx))

/-- A constant list folds to its seed under `max`. -/
lemma foldl_max_const (tl : List ℚ) (p0 : ℚ) (h : ∀ x ∈ tl, x = p0) :
    tl.foldl max p0 = p0 := by
  induction tl with
  | nil => rfl
  | cons q tl ih =>
    have hq : q = p0 := h q (List.mem_cons_self q tl)
    subst hq
    simp only [List.foldl_cons, max_self]
    exact ih (fun x hx => h x (List.mem_cons_of_mem q hx))

/-- The minimum of a non-empty constant list is the common value. -/
lemma minPrices_const (ps : List ℚ) (p0 : ℚ) (hne : ps ≠ [])
    (h : ∀ x ∈ ps, x = p0) : minPrices ps = p0 := by
  cases ps with
  | nil => exact absurd rfl hne
  | cons p tl =>
    have hp : p = p0 := h p (List.mem_cons_self p tl)
    subst hp
    exact foldl_min_const tl p (fun x hx => h x (List.mem_cons_of_mem p hx))

/-- The maximum of a non-empty constant list is the common value. -/
lemma maxPrices_const (ps : List ℚ) (p0 : ℚ) (hne : ps ≠ [])
    (h : ∀ x ∈ ps, x = p0) : maxPrices ps = p0 := by
  cases ps with
  | nil => exact absurd rfl hne
  | cons p tl =>
    have hp : p = p0 := h p (List.mem_cons_self p tl)
    subst hp
    exact foldl_max_const tl p (fun x hx => h x (List.mem_cons_of_mem p hx))

/-- Claim C4, counterexample: the claim says that for a constant series
every point gets the same finite y because `priceRange` is guarded to a
minimum of 1.  `createStockChart` in `chart.js` has no such guard: on the
constant two-point series `[100, 100]` its price range is 0 and the y
coordinate is the non-finite `NaN` (`0 / 0`). -/
theorem claim_C4_counterexample :
    createStockChart.yCoord [100, 100] 0 = JsNum.nan := by
  norm_num [createStockChart.yCoord, createStockChart.priceRange, minPrices,
    maxPrices, jsDiv, jsMulC, jsSubFrom, List.foldl]

/-- Claim C4, amended: the y map is affine and monotonic in both renderers:
for a strictly increasing price series the pixel y is strictly decreasing
in the index, with finite coordinates.  For a constant series the guarded
`displayStockChart` map sends every point to the same finite
y = padding + chartHeight = 340; the unguarded `createStockChart` map
instead produces `NaN` there (see the counterexample). -/
theorem claim_C4_amended (ps : List ℚ) :
    (∀ i j : ℕ, i < j → j < ps.length →
      (∀ j2, j2 < ps.length → ∀ i2, i2 < j2 → ps.getD i2 0 < ps.getD j2 0) →
      ∃ yi yj zi zj : ℚ,
        createStockChart.yCoord ps i = .fin yi
        ∧ createStockChart.yCoord ps j = .fin yj
        ∧ yj < yi
        ∧ displayStockChart.yCoord ps i = .fin zi
        ∧ displayStockChart.yCoord ps j = .fin zj
        ∧ zj < zi)
    ∧ (∀ p0, (∀ x ∈ ps, x = p0) → ∀ i, i < ps.length →
        displayStockChart.yCoord ps i = .fin 340) := by
  constructor
  · intro i j hij hj hmono
    have hi : i < ps.length := lt_trans hij hj
    have hmem_i : ps.getD i 0 ∈ ps := getD_mem_of_lt ps i hi
    have hmem_j : ps.getD j 0 ∈ ps := getD_mem_of_lt ps j hj
    have hlt : ps.getD i 0 < ps.getD j 0 := hmono j hj i hij
    have hminle : minPrices ps ≤ ps.getD i 0 := minPrices_le ps _ hmem_i
    have hmaxge : ps.getD j 0 ≤ maxPrices ps := le_maxPrices ps _ hmem_j
    have hrange_pos : 0 < createStockChart.priceRange ps := by
      unfold createStockChart.priceRange
      linarith
    have hr_ne : createStockChart.priceRange ps ≠ 0 := ne_of_gt hrange_pos
    have hd_ne : maxPrices ps - minPrices ps ≠ 0 := hr_ne
    have hr2 : displayStockChart.priceRange ps = maxPrices ps - minPrices ps := by
      unfold displayStockChart.priceRange
      rw [if_neg hd_ne]
    have hr2_pos : 0 < displayStockChart.priceRange ps := by
      rw [hr2]
      exact hrange_pos
    have hr2_ne : displayStockChart.priceRange ps ≠ 0 := ne_of_gt hr2_pos
    refine ⟨_, _, _, _, yCreate_eval ps i hr_ne, yCreate_eval ps j hr_ne, ?_,
      yDisplay_eval ps i hr2_ne, yDisplay_eval ps j hr2_ne, ?_⟩
    · have hfrac : (ps.getD i 0 - minPrices ps) / createStockChart.priceRange ps
          < (ps.getD j 0 - minPrices ps) / createStockChart.priceRange ps :=
        (div_lt_div_iff_of_pos_right hrange_pos).mpr (by linarith)
      have hscaled := mul_lt_mul_of_pos_right hfrac
        (show (0:ℚ) < createStockChart.chartHeight by
          norm_num [createStockChart.chartHeight, createStockChart.padding])
      linarith
    · have hfrac : (ps.getD i 0 - minPrices ps) / displayStockChart.priceRange ps
          < (ps.getD j 0 - minPrices ps) / displayStockChart.priceRange ps :=
        (div_lt_div_iff_of_pos_right hr2_pos).mpr (by linarith)
      have hscaled := mul_lt_mul_of_pos_right hfrac
        (show (0:ℚ) < displayStockChart.chartHeight by
          norm_num [displayStockChart.chartHeight, displayStockChart.padding])
      linarith
  · intro p0 hconst i hi
    have hne : ps ≠ [] := by
      intro hnil
      rw [hnil] at hi
      simp at hi
    have hmin : minPrices ps = p0 := minPrices_const ps p0 hne hconst
    have hmax : maxPrices ps = p0 := maxPrices_const ps p0 hne hconst
    have hd : maxPrices ps - minPrices ps = 0 := by
      rw [hmin, hmax]
      ring
    have hr : displayStockChart.priceRange ps = 1 := by
      unfold displayStockChart.priceRange
      rw [if_pos hd]
    have hgi : ps.getD i 0 = p0 := hconst _ (getD_mem_of_lt ps i hi)
    rw [yDisplay_eval ps i (by rw [hr]; norm_num)]
    rw [hgi, hmin, hr]
    norm_num [displayStockChart.padding, displayStockChart.chartHeight]

/-- Claim C4, witness: the amended statement instantiated at the strictly
increasing series `[1, 2]` (indices 0 and 1) and at the constant series
`[5, 5]`. -/
theorem claim_C4_witness :
    (∃ yi yj zi zj : ℚ,
      createStockChart.yCoord [1, 2] 0 = .fin yi
      ∧ createStockChart.yCoord [1, 2] 1 = .fin yj
      ∧ yj < yi
      ∧ displayStockChart.yCoord [1, 2] 0 = .fin zi
      ∧ displayStockChart.yCoord [1, 2] 1 = .fin zj
      ∧ zj < zi)
    ∧ displayStockChart.yCoord [5, 5] 0 = .fin 340 := by
  constructor
  · refine (claim_C4_amended [1, 2]).1 0 1 (by norm_num) (by norm_num) ?_
    intro j2 hj2 i2 hi2
    have hj2b : j2 < 2 := by simpa using hj2
    interval_cases j2 <;> interval_cases i2 <;> norm_num [List.getD]
  · refine (claim_C4_amended [5, 5]).2 5 ?_ 0 (by norm_num)
    intro x hx
    rcases List.mem_cons.mp hx with rfl | hx2
    · rfl
    · rcases List.mem_cons.mp hx2 with rfl | hx3
      · rfl
      · simp at hx3
